import Mathlib

/-!
Verification of the batch-scheduling core of the dslink repository.

The development embeds the two source files shallowly:

- src/lib/core/BatchScheduler.ts : the class BatchScheduler with methods
  startPeriodicBatchWriting, stopPeriodicBatchWriting and writeOperationBatch.
  Two complementary models are given: a functional model of one call to
  writeOperationBatch (its try/catch/finally body, the events it performs and
  the timer it schedules), and an event-loop model of the periodic schedule
  (a labelled transition system over pending timer tasks and in-flight
  attempts, with time in milliseconds).
- src/tests/mocks/MockBlockchain.ts : the mock Blockchain client, a pure
  state machine over the stored list of anchor hashes.
-/

/-- Values thrown by JavaScript code during a batch-writing cycle. The
distinguished constructor models the fatal ConfigurationError class; every
other thrown value is carried as a message. -/
inductive JsError
  | configurationError
  | other (msg : String)
deriving DecidableEq, Repr

/-- Model of BlockchainTimeModel: a logical time and a fork-disambiguating
hash. -/
structure BlockchainTimeModel where
  time : Nat
  hash : String
deriving DecidableEq, Repr

/-- Model of the IBatchWriter dependency as seen by one scheduler cycle: the
outcome of awaiting its write method, which either resolves or rejects with a
thrown value. -/
structure IBatchWriter where
  write : Except JsError Unit

/-- Model of the IBlockchain dependency as seen by one scheduler cycle: the
outcome of reading the approximateTime property, which either yields a
BlockchainTimeModel or throws. -/
structure IBlockchain where
  approximateTime : Except JsError BlockchainTimeModel

namespace BatchScheduler

/-- Observable actions performed by one execution of writeOperationBatch, in
program order. -/
inductive CycleEvent
  | readApproximateTime (time : Nat)
  | getBatchWriterCalled (time : Nat)
  | writeInvoked
  | errorLogged (e : JsError)
  | nextScheduled (delayMs : Nat)
deriving DecidableEq, Repr

/-- Result of one execution of writeOperationBatch: the events it performed,
the error (if any) escaping to the caller, and the delay of the setTimeout
registered in the finally block (if any). -/
structure CycleResult where
  events : List CycleEvent
  propagated : Option JsError
  nextDelayMs : Option Nat
deriving DecidableEq

/-- Outcome and logging of the catch clause, given the outcome of the try
block: a normal outcome passes through untouched; a thrown value is given to
the handler, and whatever the handler returns (or rethrows) becomes the
outcome. -/
def handleCatch (outcome : Except JsError Unit)
    (handler : JsError → List CycleEvent × Except JsError Unit) :
    List CycleEvent × Except JsError Unit :=
  match outcome with
  | Except.ok u => ([], Except.ok u)
  | Except.error e => handler e

/-- The value still being thrown once a block has finished: none when it
completed normally. -/
def thrownValue : Except JsError Unit → Option JsError
  | Except.ok _ => none
  | Except.error e => some e

/-- JavaScript try/catch/finally semantics for the shape occurring in
writeOperationBatch: the finally clause of this code performs logging and at
most one setTimeout registration and throws nothing, so the error escaping
the whole statement is exactly the value still thrown after the catch clause
ran. -/
def jsTryCatchFinally (body : List CycleEvent × Except JsError Unit)
    (handler : JsError → List CycleEvent × Except JsError Unit)
    (final : List CycleEvent × Option Nat) : CycleResult :=
  { events := body.1 ++ (handleCatch body.2 handler).1 ++ final.1
    propagated := thrownValue (handleCatch body.2 handler).2
    nextDelayMs := final.2 }

/-- The try block of writeOperationBatch: read
this.blockchain.approximateTime.time, call this.getBatchWriter on exactly the
time just read, then await batchWriter.write(). The first component lists the
actions that actually happened before the block finished or threw; the second
is its outcome. -/
def tryBody (blockchain : IBlockchain)
    (getBatchWriter : Nat → Except JsError IBatchWriter) :
    List CycleEvent × Except JsError Unit :=
  match blockchain.approximateTime with
  | Except.error e => ([], Except.error e)
  | Except.ok currentTime =>
    match getBatchWriter currentTime.time with
    | Except.error e =>
      ([CycleEvent.readApproximateTime currentTime.time], Except.error e)
    | Except.ok batchWriter =>
      ([CycleEvent.readApproximateTime currentTime.time,
        CycleEvent.getBatchWriterCalled currentTime.time,
        CycleEvent.writeInvoked],
       batchWriter.write)

/-- One execution of writeOperationBatch. The catch block only logs the error
and returns normally; the finally block, when the continue flag is set,
registers a setTimeout for batchingIntervalInSeconds * 1000 milliseconds. -/
def writeOperationBatch (blockchain : IBlockchain)
    (getBatchWriter : Nat → Except JsError IBatchWriter)
    (continuePeriodicBatchWriting : Bool)
    (batchingIntervalInSeconds : Nat) : CycleResult :=
  jsTryCatchFinally (tryBody blockchain getBatchWriter)
    (fun e => ([CycleEvent.errorLogged e], Except.ok ()))
    (if continuePeriodicBatchWriting then
      ([CycleEvent.nextScheduled (batchingIntervalInSeconds * 1000)],
       some (batchingIntervalInSeconds * 1000))
     else ([], none))

end BatchScheduler

/-- Model of TransactionModel as built by MockBlockchain.read. Element access
into the hashes array is JavaScript access, so a field may hold the undefined
value, modelled by none. -/
structure TransactionModel where
  transactionNumber : Int
  transactionTime : Int
  transactionTimeHash : Option String
  anchorString : Option String
deriving DecidableEq, Repr

namespace MockBlockchain

/-- JavaScript array element access with a possibly negative or out-of-range
index: hashes[i] is undefined (none) outside the range. -/
def jsIndex (hashes : List String) (i : Int) : Option String :=
  if h : 0 ≤ i ∧ i.toNat < hashes.length then some (hashes.get ⟨i.toNat, h.2⟩)
  else none

/-- Model of MockBlockchain.write: pushes the anchor string onto the stored
hashes array. The state of the mock is exactly that array. -/
def write (hashes : List String) (anchorString : String) : List String :=
  hashes ++ [anchorString]

/-- Shape of the value resolved by MockBlockchain.read. -/
structure ReadResult where
  moreTransactions : Bool
  transactions : List TransactionModel
deriving DecidableEq, Repr

/-- Model of MockBlockchain.read. A missing sinceTransactionNumber is
replaced by -1; the transactionTimeHash argument is ignored by the source
(it is named with a leading underscore and never used); arithmetic on the
array length is JavaScript number arithmetic, hence carried out in Int. The
method always resolves with a normal ReadResult and never rejects. -/
def read (hashes : List String) (sinceTransactionNumber : Option Int)
    (_transactionTimeHash : Option String) : ReadResult :=
  let since : Int := sinceTransactionNumber.getD (-1)
  let moreTransactions : Bool :=
    decide (0 < hashes.length) && decide (since < (hashes.length : Int) - 2)
  let transactions : List TransactionModel :=
    if 0 < hashes.length ∧ since < (hashes.length : Int) - 1 then
      let hashIndex : Int := since + 1
      [{ transactionNumber := hashIndex
         transactionTime := hashIndex
         transactionTimeHash := jsIndex hashes hashIndex
         anchorString := jsIndex hashes hashIndex }]
    else []
  { moreTransactions := moreTransactions, transactions := transactions }

end MockBlockchain

namespace BatchScheduler

/-- Event-loop state of the periodic schedule. Times are absolute
milliseconds. tasks holds the eligibility times of the pending callbacks
registered with setImmediate or setTimeout; running holds the (start,
completion) times of the write attempts currently in flight; attempts records
completed attempts, newest first. -/
structure LoopState where
  clock : Nat
  continuePeriodicBatchWriting : Bool
  tasks : List Nat
  running : List (Nat × Nat)
  attempts : List (Nat × Nat)
deriving DecidableEq, Repr

/-- Model of startPeriodicBatchWriting: sets the continue flag and registers
one setImmediate callback, eligible at the current instant; nothing is
executed synchronously. -/
def startPeriodicBatchWriting (s : LoopState) : LoopState :=
  { s with continuePeriodicBatchWriting := true, tasks := s.clock :: s.tasks }

/-- Model of stopPeriodicBatchWriting: clears the continue flag and nothing
else; pending timers are not cancelled and in-flight attempts are not
interrupted. -/
def stopPeriodicBatchWriting (s : LoopState) : LoopState :=
  { s with continuePeriodicBatchWriting := false }

/-- The event loop fires a pending callback whose eligibility time is t: the
attempt starts no earlier than t (at max clock t), and the awaited write will
take d milliseconds. -/
def fireTask (s : LoopState) (t d : Nat) : LoopState :=
  { s with clock := max s.clock t
           tasks := s.tasks.erase t
           running := (max s.clock t, max s.clock t + d) :: s.running }

/-- The awaited write of the in-flight attempt p resolves or rejects at time
p.2 and the finally block of writeOperationBatch runs: if the continue flag
is set at that moment, a setTimeout eligible at p.2 plus the interval in
milliseconds is registered; otherwise nothing is scheduled. -/
def completeAttempt (batchingIntervalInSeconds : Nat) (s : LoopState)
    (p : Nat × Nat) : LoopState :=
  { s with clock := max s.clock p.2
           running := s.running.erase p
           attempts := p :: s.attempts
           tasks :=
             if s.continuePeriodicBatchWriting then
               (p.2 + batchingIntervalInSeconds * 1000) :: s.tasks
             else s.tasks }

/-- Transitions of the event loop between two calls to
startPeriodicBatchWriting: the caller may invoke stopPeriodicBatchWriting at
any moment, the loop may fire any pending callback, and any in-flight attempt
may complete. -/
inductive StepNS (batchingIntervalInSeconds : Nat) : LoopState → LoopState → Prop
  | stop (s : LoopState) : StepNS batchingIntervalInSeconds s (stopPeriodicBatchWriting s)
  | fire (s : LoopState) (t d : Nat) (h : t ∈ s.tasks) :
      StepNS batchingIntervalInSeconds s (fireTask s t d)
  | complete (s : LoopState) (p : Nat × Nat) (h : p ∈ s.running) :
      StepNS batchingIntervalInSeconds s (completeAttempt batchingIntervalInSeconds s p)

/-- Reachability along event-loop transitions that contain no further call to
startPeriodicBatchWriting. -/
def Reaches (batchingIntervalInSeconds : Nat) : LoopState → LoopState → Prop :=
  Relation.ReflTransGen (StepNS batchingIntervalInSeconds)

/-- Number of schedule obligations alive in a loop state: pending callbacks
plus in-flight attempts. -/
def inFlight (s : LoopState) : Nat := s.tasks.length + s.running.length

/-- The scenario of the slow-write property: the scheduler is started on the
idle state at time 0 with a one second interval, and the immediate first
attempt takes 3000 milliseconds, so it is in flight from 0 to 3000. -/
def slowWriteState : LoopState :=
  fireTask (startPeriodicBatchWriting ⟨0, false, [], [], []⟩) 0 3000

end BatchScheduler

/-- C1: every error raised inside the attempt of writeOperationBatch, whether
while resolving the ledger time, while obtaining the BatchWriter, or inside
the write of the BatchWriter, is consumed by the catch block: no execution of
writeOperationBatch propagates an error to its caller, for any dependencies,
flag value and interval. -/
theorem writeOperationBatch_never_propagates (blockchain : IBlockchain)
    (getBatchWriter : Nat → Except JsError IBatchWriter)
    (continueFlag : Bool) (intervalS : Nat) :
    (BatchScheduler.writeOperationBatch blockchain getBatchWriter
      continueFlag intervalS).propagated = none := by
  unfold BatchScheduler.writeOperationBatch BatchScheduler.jsTryCatchFinally
  cases h : (BatchScheduler.tryBody blockchain getBatchWriter).2 <;>
    simp [BatchScheduler.handleCatch, BatchScheduler.thrownValue, h]

/-- C6: whenever the ledger time resolves to a value t and the dispatch
function yields a BatchWriter at t, the cycle performs, in this order:
reading the approximate time, calling getBatchWriter on exactly the time t
that was just read, and invoking the write of the returned BatchWriter. -/
theorem writeOperationBatch_step_order (blockchain : IBlockchain)
    (getBatchWriter : Nat → Except JsError IBatchWriter)
    (continueFlag : Bool) (intervalS : Nat)
    (t : BlockchainTimeModel) (bw : IBatchWriter)
    (htime : blockchain.approximateTime = Except.ok t)
    (hbw : getBatchWriter t.time = Except.ok bw) :
    (BatchScheduler.writeOperationBatch blockchain getBatchWriter
        continueFlag intervalS).events.take 3 =
      [BatchScheduler.CycleEvent.readApproximateTime t.time,
       BatchScheduler.CycleEvent.getBatchWriterCalled t.time,
       BatchScheduler.CycleEvent.writeInvoked] := by
  unfold BatchScheduler.writeOperationBatch BatchScheduler.jsTryCatchFinally
    BatchScheduler.tryBody
  simp only [htime]
  simp only [hbw]
  cases bw.write <;> simp [BatchScheduler.handleCatch]

/-- Witness for C6 at a concrete environment: the mock ledger time 500000
and a successful BatchWriter. -/
theorem writeOperationBatch_step_order_witness :
    (BatchScheduler.writeOperationBatch
        { approximateTime := Except.ok { time := 500000, hash := "dummyHash" } }
        (fun _ => Except.ok { write := Except.ok () }) true 60).events.take 3 =
      [BatchScheduler.CycleEvent.readApproximateTime 500000,
       BatchScheduler.CycleEvent.getBatchWriterCalled 500000,
       BatchScheduler.CycleEvent.writeInvoked] :=
  writeOperationBatch_step_order
    { approximateTime := Except.ok { time := 500000, hash := "dummyHash" } }
    (fun _ => Except.ok { write := Except.ok () }) true 60
    { time := 500000, hash := "dummyHash" } { write := Except.ok () } rfl rfl

/-- C10: the catch of writeOperationBatch is indiscriminate: when the
dispatch function throws the fatal ConfigurationError at the resolved time,
the error is still logged like any other cycle error, nothing propagates to
the caller, and with the continue flag set the next attempt is still
scheduled after the usual interval. -/
theorem writeOperationBatch_catches_configurationError (blockchain : IBlockchain)
    (getBatchWriter : Nat → Except JsError IBatchWriter)
    (intervalS : Nat) (t : BlockchainTimeModel)
    (htime : blockchain.approximateTime = Except.ok t)
    (hbw : getBatchWriter t.time = Except.error JsError.configurationError) :
    (BatchScheduler.writeOperationBatch blockchain getBatchWriter true
        intervalS).propagated = none ∧
    (BatchScheduler.writeOperationBatch blockchain getBatchWriter true
        intervalS).nextDelayMs = some (intervalS * 1000) ∧
    BatchScheduler.CycleEvent.errorLogged JsError.configurationError ∈
      (BatchScheduler.writeOperationBatch blockchain getBatchWriter true
        intervalS).events := by
  unfold BatchScheduler.writeOperationBatch BatchScheduler.jsTryCatchFinally
    BatchScheduler.tryBody
  simp only [htime]
  simp only [hbw]
  simp [BatchScheduler.handleCatch, BatchScheduler.thrownValue]

/-- Witness for C10 at a concrete environment: ledger time 500000 and a
dispatch function that always throws ConfigurationError. -/
theorem writeOperationBatch_catches_configurationError_witness :
    (BatchScheduler.writeOperationBatch
        { approximateTime := Except.ok { time := 500000, hash := "dummyHash" } }
        (fun _ => Except.error JsError.configurationError) true 60).propagated =
      none ∧
    (BatchScheduler.writeOperationBatch
        { approximateTime := Except.ok { time := 500000, hash := "dummyHash" } }
        (fun _ => Except.error JsError.configurationError) true 60).nextDelayMs =
      some 60000 ∧
    BatchScheduler.CycleEvent.errorLogged JsError.configurationError ∈
      (BatchScheduler.writeOperationBatch
        { approximateTime := Except.ok { time := 500000, hash := "dummyHash" } }
        (fun _ => Except.error JsError.configurationError) true 60).events :=
  writeOperationBatch_catches_configurationError
    { approximateTime := Except.ok { time := 500000, hash := "dummyHash" } }
    (fun _ => Except.error JsError.configurationError) 60
    { time := 500000, hash := "dummyHash" } rfl rfl

namespace BatchScheduler

/-- One event-loop transition never increases the number of alive schedule
obligations: firing converts a pending callback into an in-flight attempt,
and completion converts an in-flight attempt into at most one pending
callback. -/
theorem inFlight_le_of_stepNS {I : Nat} {s t : LoopState}
    (h : StepNS I s t) : inFlight t ≤ inFlight s := by
  cases h with
  | stop => exact Nat.le_refl _
  | fire u d hu =>
    have h1 : 0 < s.tasks.length := List.length_pos_of_mem hu
    have h2 : (s.tasks.erase u).length = s.tasks.length - 1 :=
      List.length_erase_of_mem hu
    simp only [inFlight, fireTask, List.length_cons, h2]
    omega
  | complete p hp =>
    have h1 : 0 < s.running.length := List.length_pos_of_mem hp
    have h2 : (s.running.erase p).length = s.running.length - 1 :=
      List.length_erase_of_mem hp
    simp only [inFlight, completeAttempt, h2]
    split
    · simp only [List.length_cons]
      omega
    · omega

/-- Along any sequence of event-loop transitions the number of alive
schedule obligations never increases. -/
theorem inFlight_le_of_reaches {I : Nat} {s t : LoopState}
    (h : Reaches I s t) : inFlight t ≤ inFlight s := by
  induction h with
  | refl => exact Nat.le_refl _
  | tail _ hstep ih => exact Nat.le_trans (inFlight_le_of_stepNS hstep) ih

/-- Once the continue flag is down, transitions keep it down and never
create a pending callback that was not already pending. -/
theorem no_new_tasks_of_reaches {I : Nat} {s t : LoopState}
    (h : Reaches I s t) (hs : s.continuePeriodicBatchWriting = false) :
    t.continuePeriodicBatchWriting = false ∧ ∀ u ∈ t.tasks, u ∈ s.tasks := by
  induction h with
  | refl => exact ⟨hs, fun u hu => hu⟩
  | tail _ hstep ih =>
    obtain ⟨hf, hsub⟩ := ih
    cases hstep with
    | stop => exact ⟨rfl, hsub⟩
    | fire u d hu =>
      exact ⟨hf, fun v hv => hsub v (List.mem_of_mem_erase hv)⟩
    | complete p hp =>
      refine ⟨hf, fun v hv => ?_⟩
      simp only [completeAttempt, hf, if_false] at hv
      exact hsub v hv

end BatchScheduler

/-- C2: for every write attempt p in flight with the continue flag up,
completing the attempt is a legal transition and it registers the next
callback at exactly the completion time plus batchingIntervalInSeconds in
milliseconds, measured from completion and not from the start of the
attempt: an attempt of duration d pushes the next eligibility time d beyond
interval-after-start. -/
theorem completeAttempt_schedules_from_completion (I : Nat)
    (s : BatchScheduler.LoopState) (p : Nat × Nat)
    (hp : p ∈ s.running) (hflag : s.continuePeriodicBatchWriting = true) :
    BatchScheduler.StepNS I s (BatchScheduler.completeAttempt I s p) ∧
    (BatchScheduler.completeAttempt I s p).tasks = (p.2 + I * 1000) :: s.tasks ∧
    (∀ d : Nat, p.2 = p.1 + d → p.2 + I * 1000 = (p.1 + I * 1000) + d) := by
  refine ⟨BatchScheduler.StepNS.complete s p hp, ?_, ?_⟩
  · simp [BatchScheduler.completeAttempt, hflag]
  · intro d hd
    omega

/-- Witness for C2: one in-flight attempt that started at time 0 and
completes at time 3000, with a one second interval; the next callback is
registered at 4000. -/
theorem completeAttempt_schedules_from_completion_witness :
    BatchScheduler.StepNS 1 ⟨0, true, [], [(0, 3000)], []⟩
      (BatchScheduler.completeAttempt 1 ⟨0, true, [], [(0, 3000)], []⟩
        (0, 3000)) ∧
    (BatchScheduler.completeAttempt 1 ⟨0, true, [], [(0, 3000)], []⟩
        (0, 3000)).tasks = [4000] ∧
    (∀ d : Nat, 3000 = 0 + d → 3000 + 1 * 1000 = (0 + 1 * 1000) + d) :=
  completeAttempt_schedules_from_completion 1 ⟨0, true, [], [(0, 3000)], []⟩
    (0, 3000) (by simp) rfl

/-- C8: the loop is single-flight: starting from an idle state (no pending
callback, no in-flight attempt), after startPeriodicBatchWriting every
reachable loop state has at most one schedule obligation alive in total, so
in particular at most one attempt is in flight and no attempt can begin
while another is still running. -/
theorem single_flight (I : Nat) (s t : BatchScheduler.LoopState)
    (htasks : s.tasks = []) (hrunning : s.running = [])
    (h : BatchScheduler.Reaches I (BatchScheduler.startPeriodicBatchWriting s) t) :
    t.tasks.length + t.running.length ≤ 1 ∧ t.running.length ≤ 1 := by
  have hstart : BatchScheduler.inFlight (BatchScheduler.startPeriodicBatchWriting s) = 1 := by
    simp [BatchScheduler.inFlight, BatchScheduler.startPeriodicBatchWriting,
      htasks, hrunning]
  have hle := BatchScheduler.inFlight_le_of_reaches h
  rw [hstart] at hle
  unfold BatchScheduler.inFlight at hle
  omega

/-- Witness for C8: the state right after startPeriodicBatchWriting on the
empty idle state. -/
theorem single_flight_witness :
    (BatchScheduler.startPeriodicBatchWriting
        ⟨0, false, [], [], []⟩).tasks.length +
      (BatchScheduler.startPeriodicBatchWriting
        ⟨0, false, [], [], []⟩).running.length ≤ 1 ∧
    (BatchScheduler.startPeriodicBatchWriting
        ⟨0, false, [], [], []⟩).running.length ≤ 1 :=
  single_flight 1 ⟨0, false, [], [], []⟩ _ rfl rfl Relation.ReflTransGen.refl

/-- C3: stopPeriodicBatchWriting clears the continue flag; any attempt in
flight at that moment can still run to completion (completing it remains a
legal transition); and in every later loop state reached without a new call
to startPeriodicBatchWriting the flag is still down and every pending
callback was already pending at the moment of the stop: no further attempt
is ever scheduled. -/
theorem stopPeriodicBatchWriting_spec (I : Nat)
    (s t : BatchScheduler.LoopState)
    (h : BatchScheduler.Reaches I (BatchScheduler.stopPeriodicBatchWriting s) t) :
    (BatchScheduler.stopPeriodicBatchWriting s).continuePeriodicBatchWriting =
      false ∧
    (∀ p ∈ s.running,
      BatchScheduler.StepNS I (BatchScheduler.stopPeriodicBatchWriting s)
        (BatchScheduler.completeAttempt I
          (BatchScheduler.stopPeriodicBatchWriting s) p)) ∧
    t.continuePeriodicBatchWriting = false ∧
    ∀ u ∈ t.tasks, u ∈ s.tasks := by
  obtain ⟨hf, hsub⟩ := BatchScheduler.no_new_tasks_of_reaches h rfl
  exact ⟨rfl, fun p hp => BatchScheduler.StepNS.complete _ p hp, hf, hsub⟩

/-- Witness for C3: stopping while one attempt is in flight and one stale
callback is pending, staying at that state. -/
theorem stopPeriodicBatchWriting_spec_witness :
    (BatchScheduler.stopPeriodicBatchWriting
        ⟨7, true, [9], [(2, 5)], []⟩).continuePeriodicBatchWriting = false ∧
    (∀ p ∈ (⟨7, true, [9], [(2, 5)], []⟩ : BatchScheduler.LoopState).running,
      BatchScheduler.StepNS 1
        (BatchScheduler.stopPeriodicBatchWriting ⟨7, true, [9], [(2, 5)], []⟩)
        (BatchScheduler.completeAttempt 1
          (BatchScheduler.stopPeriodicBatchWriting ⟨7, true, [9], [(2, 5)], []⟩)
          p)) ∧
    (BatchScheduler.stopPeriodicBatchWriting
        ⟨7, true, [9], [(2, 5)], []⟩).continuePeriodicBatchWriting = false ∧
    ∀ u ∈ (BatchScheduler.stopPeriodicBatchWriting
        ⟨7, true, [9], [(2, 5)], []⟩).tasks,
      u ∈ (⟨7, true, [9], [(2, 5)], []⟩ : BatchScheduler.LoopState).tasks :=
  stopPeriodicBatchWriting_spec 1 ⟨7, true, [9], [(2, 5)], []⟩ _
    Relation.ReflTransGen.refl

namespace BatchScheduler

/-- Invariant of the slow-write scenario: every pending callback is eligible
no earlier than 4000, every attempt other than the initial one started no
earlier than 4000, and every completion lies at 3000 or later. -/
theorem slowWrite_invariant {t : LoopState}
    (h : Reaches 1 slowWriteState t) :
    (∀ u ∈ t.tasks, 4000 ≤ u) ∧
    (∀ p ∈ t.running, (p.1 = 0 ∨ 4000 ≤ p.1) ∧ 3000 ≤ p.2) ∧
    (∀ p ∈ t.attempts, p.1 = 0 ∨ 4000 ≤ p.1) := by
  induction h with
  | refl =>
    refine ⟨?_, ?_, ?_⟩ <;>
      simp [slowWriteState, fireTask, startPeriodicBatchWriting]
  | tail _ hstep ih =>
    obtain ⟨htasks, hrun, hatt⟩ := ih
    cases hstep with
    | stop => exact ⟨htasks, hrun, hatt⟩
    | fire u d hu =>
      have hu4 : 4000 ≤ u := htasks u hu
      refine ⟨fun v hv => htasks v (List.mem_of_mem_erase hv), ?_, hatt⟩
      intro p hp
      simp only [fireTask, List.mem_cons] at hp
      rcases hp with hp | hp
      · subst hp
        constructor
        · right
          omega
        · omega
      · exact hrun p hp
    | complete p hp =>
      have hp2 := hrun p hp
      refine ⟨?_, fun q hq => hrun q (List.mem_of_mem_erase hq), ?_⟩
      · intro v hv
        simp only [completeAttempt] at hv
        split at hv
        · rcases List.mem_cons.mp hv with hv | hv
          · have h3 : 3000 ≤ p.2 := hp2.2
            omega
          · exact htasks v hv
        · exact htasks v hv
      · intro q hq
        simp only [completeAttempt, List.mem_cons] at hq
        rcases hq with hq | hq
        · subst hq
          exact hp2.1
        · exact hatt q hq

end BatchScheduler

/-- C7: startPeriodicBatchWriting sets the continue flag and registers
exactly one callback, eligible immediately at the current instant; it runs no
attempt synchronously, leaving the in-flight set and the record of completed
attempts untouched, so the caller is not waited on. -/
theorem startPeriodicBatchWriting_spec (s : BatchScheduler.LoopState) :
    (BatchScheduler.startPeriodicBatchWriting s).continuePeriodicBatchWriting =
      true ∧
    (BatchScheduler.startPeriodicBatchWriting s).tasks = s.clock :: s.tasks ∧
    (BatchScheduler.startPeriodicBatchWriting s).running = s.running ∧
    (BatchScheduler.startPeriodicBatchWriting s).attempts = s.attempts ∧
    (BatchScheduler.startPeriodicBatchWriting s).clock = s.clock :=
  ⟨rfl, rfl, rfl, rfl, rfl⟩

/-- C4 counterexample: in the concrete scenario of the claim (interval one
second, first write attempt taking 3000 milliseconds, started at time 0),
while the slow write is in flight no callback is pending at all, completing
it registers the next callback at 4000 milliseconds, and firing that callback
begins the next attempt at 4000 milliseconds: the next write attempt does not
begin at 3000 milliseconds. -/
theorem slowWrite_counterexample :
    BatchScheduler.slowWriteState.tasks = [] ∧
    BatchScheduler.slowWriteState.running = [(0, 3000)] ∧
    (BatchScheduler.completeAttempt 1 BatchScheduler.slowWriteState
        (0, 3000)).tasks = [4000] ∧
    (BatchScheduler.fireTask
        (BatchScheduler.completeAttempt 1 BatchScheduler.slowWriteState
          (0, 3000)) 4000 500).running = [(4000, 4500)] ∧
    (4000 ≠ 3000) := by
  refine ⟨rfl, rfl, rfl, rfl, by decide⟩

/-- C4 amended: with a batching interval of one second and a write attempt
taking three seconds, the next write attempt begins at t = 4000 milliseconds
(the completion of the slow write plus the interval), and never at t = 1000
milliseconds: completing the slow write registers the next callback at
exactly 4000, and in every loop state reachable from the in-flight scenario
without a new start call, every pending callback is eligible at 4000 or
later and every attempt other than the initial one begins at 4000 or
later. -/
theorem slowWrite_next_begins_at_4000 (t : BatchScheduler.LoopState)
    (h : BatchScheduler.Reaches 1 BatchScheduler.slowWriteState t) :
    (BatchScheduler.completeAttempt 1 BatchScheduler.slowWriteState
        (0, 3000)).tasks = [4000] ∧
    (∀ u ∈ t.tasks, 4000 ≤ u) ∧
    (∀ p ∈ t.running, p.1 = 0 ∨ 4000 ≤ p.1) ∧
    (∀ p ∈ t.attempts, p.1 = 0 ∨ 4000 ≤ p.1) := by
  obtain ⟨htasks, hrun, hatt⟩ := BatchScheduler.slowWrite_invariant h
  exact ⟨rfl, htasks, fun p hp => (hrun p hp).1, hatt⟩

/-- Witness for the amended C4 at the in-flight scenario state itself. -/
theorem slowWrite_next_begins_at_4000_witness :
    (BatchScheduler.completeAttempt 1 BatchScheduler.slowWriteState
        (0, 3000)).tasks = [4000] ∧
    (∀ u ∈ BatchScheduler.slowWriteState.tasks, 4000 ≤ u) ∧
    (∀ p ∈ BatchScheduler.slowWriteState.running, p.1 = 0 ∨ 4000 ≤ p.1) ∧
    (∀ p ∈ BatchScheduler.slowWriteState.attempts, p.1 = 0 ∨ 4000 ≤ p.1) :=
  slowWrite_next_begins_at_4000 BatchScheduler.slowWriteState
    Relation.ReflTransGen.refl

/-- C5 counterexample: with the anchors a then b stored by two write calls,
reading since transaction number 0 while supplying the hash value wrong,
which does not match the stored hash a at that transaction number, still
resolves with a normal moreTransactions/transactions result, identical to
the result obtained with the matching hash: read signals no reorg on hash
mismatch. -/
theorem read_hash_mismatch_counterexample :
    MockBlockchain.read
        (MockBlockchain.write (MockBlockchain.write [] "a") "b")
        (some 0) (some "wrong") =
      { moreTransactions := false,
        transactions := [{ transactionNumber := 1,
                           transactionTime := 1,
                           transactionTimeHash := some "b",
                           anchorString := some "b" }] } ∧
    MockBlockchain.read
        (MockBlockchain.write (MockBlockchain.write [] "a") "b")
        (some 0) (some "wrong") =
      MockBlockchain.read
        (MockBlockchain.write (MockBlockchain.write [] "a") "b")
        (some 0) (some "a") := by
  exact ⟨by decide, rfl⟩

/-- C5 amended: the read of MockBlockchain never fails and carries no reorg
signal: its result is a normal moreTransactions/transactions value that is
completely independent of the sinceTransactionTimeHash argument, matching or
not. -/
theorem read_independent_of_hash (hashes : List String)
    (sinceTransactionNumber : Option Int) (h1 h2 : Option String) :
    MockBlockchain.read hashes sinceTransactionNumber h1 =
      MockBlockchain.read hashes sinceTransactionNumber h2 := rfl

/-- Repeated MockBlockchain.write calls append the anchor strings in call
order to the stored hashes. -/
theorem foldl_write (acc : List String) (as : List String) :
    List.foldl MockBlockchain.write acc as = acc ++ as := by
  induction as generalizing acc with
  | nil => simp
  | cons a as ih => simp [MockBlockchain.write, ih]

/-- In-range JavaScript element access agrees with access with a default. -/
theorem jsIndex_eq_getD (hashes : List String) (i : Int) (h0 : 0 ≤ i)
    (hlt : i.toNat < hashes.length) :
    MockBlockchain.jsIndex hashes i = some (hashes.getD i.toNat "") := by
  unfold MockBlockchain.jsIndex
  rw [dif_pos ⟨h0, hlt⟩, List.getD_eq_getElem hashes "" hlt]
  simp

/-- C9: round trip on MockBlockchain. After write calls with the anchor
strings of as, the stored hashes are exactly as; a missing
sinceTransactionNumber behaves as -1; for -1 <= k < n - 1 (n the number of
writes) read since k resolves exactly one transaction, whose number, time,
time hash and anchor string are k + 1, k + 1 and the anchor written at
position k + 1, with moreTransactions true exactly when k < n - 2; read
since k >= n - 1, and any read on an empty store, resolves the empty
transaction list with moreTransactions false. -/
theorem mockBlockchain_roundtrip (as : List String) (k : Int)
    (h : Option String) :
    (List.foldl MockBlockchain.write [] as = as) ∧
    (MockBlockchain.read (List.foldl MockBlockchain.write [] as) none h =
      MockBlockchain.read (List.foldl MockBlockchain.write [] as)
        (some (-1)) h) ∧
    (-1 ≤ k → k < (as.length : Int) - 1 →
      MockBlockchain.read (List.foldl MockBlockchain.write [] as)
          (some k) h =
        { moreTransactions := decide (k < (as.length : Int) - 2),
          transactions := [{ transactionNumber := k + 1,
                             transactionTime := k + 1,
                             transactionTimeHash :=
                               some (as.getD (k + 1).toNat ""),
                             anchorString :=
                               some (as.getD (k + 1).toNat "") }] }) ∧
    ((as.length : Int) - 1 ≤ k →
      MockBlockchain.read (List.foldl MockBlockchain.write [] as)
          (some k) h =
        { moreTransactions := false, transactions := [] }) ∧
    (as = [] →
      MockBlockchain.read (List.foldl MockBlockchain.write [] as)
          (some k) h =
        { moreTransactions := false, transactions := [] }) := by
  have hw : List.foldl MockBlockchain.write [] as = as := by
    rw [foldl_write]
    exact List.nil_append as
  rw [hw]
  refine ⟨rfl, rfl, ?_, ?_, ?_⟩
  · intro hk1 hk2
    have hlen : 0 < as.length := by omega
    have hidx : (k + 1).toNat < as.length := by omega
    unfold MockBlockchain.read
    simp only [Option.getD_some]
    rw [if_pos ⟨hlen, hk2⟩, jsIndex_eq_getD as (k + 1) (by omega) hidx]
    simp [hlen]
  · intro hk
    have hm : ¬(k < (as.length : Int) - 2) := by omega
    have ht : ¬(0 < as.length ∧ k < (as.length : Int) - 1) := by omega
    unfold MockBlockchain.read
    simp only [Option.getD_some]
    rw [if_neg ht]
    simp [hm]
  · intro he
    subst he
    simp [MockBlockchain.read]

/-- Witness for C9: three writes a, b, c then read since 0, which resolves
transaction number 1 carrying anchor b, with more transactions available. -/
theorem mockBlockchain_roundtrip_witness :
    MockBlockchain.read (List.foldl MockBlockchain.write [] ["a", "b", "c"])
        (some 0) none =
      { moreTransactions := true,
        transactions := [{ transactionNumber := 1,
                           transactionTime := 1,
                           transactionTimeHash := some "b",
                           anchorString := some "b" }] } :=
  (mockBlockchain_roundtrip ["a", "b", "c"] 0 none).2.2.1 (by decide)
    (by decide)
